import Mathlib

/-!
Verification of the habit scoring engine (habitScore module).

Dates are modelled as epoch-day integers (the JS code walks whole calendar days
at local midnight and compares YYYY-MM-DD strings, which is in bijection with
day numbers).  Scores are modelled as exact rationals; the decimal constants of
the source are exact decimal fractions.  The completion set is a list of days
with membership testing, matching the JS Set built from the completedDates
array.  The current day (new Date() truncated to midnight) is an explicit
parameter named today.
-/

set_option maxRecDepth 200000

namespace HabitScore

/-- Habit frequency strings; other covers any unknown string (default branch). -/
inductive Frequency
  | daily
  | weekly
  | interval
  | specific_days
  | other
deriving DecidableEq

/-- Habit schedule descriptor.  The JS object fields used by the engine.
interval = 0 models a falsy interval field (absent / 0); specificDays = none
models an absent specificDays field ([] stays an empty list, as in JS where an
empty array is truthy). -/
structure Habit where
  frequency : Frequency
  interval : Nat
  createdAt : Int
  specificDays : Option (List Nat)
deriving DecidableEq

/-- JS Date.getDay for an epoch-day number: day 0 (1970-01-01) was a Thursday (4). -/
def dayOfWeek (d : Int) : Nat := ((d + 4) % 7).toNat

/-- Constant SCORE_INCREASE = 0.052 from the source. -/
def SCORE_INCREASE : ℚ := 0.052

/-- Constant SCORE_DECREASE = 0.035 from the source. -/
def SCORE_DECREASE : ℚ := 0.035

/-- Constant MAX_SCORE = 1.0 from the source. -/
def MAX_SCORE : ℚ := 1

/-- Constant MIN_SCORE = 0.0 from the source. -/
def MIN_SCORE : ℚ := 0

/-- isDayScheduled(date, habit) from the source. -/
def isDayScheduled (date : Int) (habit : Habit) : Bool :=
  match habit.frequency with
  | Frequency.daily => true
  | Frequency.weekly => true
  | Frequency.interval =>
    let iv : Int := if habit.interval = 0 then 2 else (habit.interval : Int)
    let daysSinceStart : Int := date - habit.createdAt
    decide (0 ≤ daysSinceStart) && decide (daysSinceStart % iv = 0)
  | Frequency.specific_days =>
    (habit.specificDays.getD [0, 1, 2, 3, 4, 5, 6]).contains (dayOfWeek date)
  | Frequency.other => true

/-- One iteration of the scoring loop body shared by calculateHabitScore and
calculateScoreHistory: scheduled+completed days increase the score (clamped at
MAX_SCORE), scheduled+missed days decrease it (clamped at MIN_SCORE),
non-scheduled days leave it unchanged. -/
def scoreStep (completed : List Int) (habit : Habit) (score : ℚ) (date : Int) : ℚ :=
  if isDayScheduled date habit then
    if completed.contains date then
      min MAX_SCORE (score + SCORE_INCREASE * (1 - score * 0.5))
    else
      max MIN_SCORE (score - SCORE_DECREASE * (0.5 + score * 0.5))
  else score

/-- The days visited by the scoring loops: i runs from days-1 down to 0 and the
visited date is today - i, i.e. oldest to newest, ending today. -/
def windowDates (today : Int) (days : Nat) : List Int :=
  (List.range days).reverse.map (fun (i : Nat) => today - (i : Int))

/-- calculateHabitScore(completedDates, habit, daysToAnalyze) from the source
(the default argument 60 is applied at the call site getHabitStats). -/
def calculateHabitScore (completed : List Int) (habit : Habit) (today : Int)
    (daysToAnalyze : Nat) : ℚ :=
  (windowDates today daysToAnalyze).foldl (scoreStep completed habit) 0

/-- The loop of calculateScoreHistory: walks the dates oldest to newest,
updating the running score exactly as scoreStep and pushing a (date, score)
entry for every day, scheduled or not. -/
def scoreHistoryAux (completed : List Int) (habit : Habit) : ℚ → List Int → List (Int × ℚ)
  | _, [] => []
  | score, d :: rest =>
    let s := scoreStep completed habit score d
    (d, s) :: scoreHistoryAux completed habit s rest

/-- calculateScoreHistory(completedDates, habit, days) from the source
(the default argument 30 is applied at the call site getHabitStats). -/
def calculateScoreHistory (completed : List Int) (habit : Habit) (today : Int)
    (days : Nat) : List (Int × ℚ) :=
  scoreHistoryAux completed habit 0 (windowDates today days)

/-- Ascending list of days a, a+1, ..., b (empty when a > b). -/
def ascRange (a b : Int) : List Int :=
  (List.range (b + 1 - a).toNat).map (fun (j : Nat) => a + (j : Int))

/-- Descending list of days a, a-1, ..., b (empty when a < b): the visit order
of the backward while-loop of calculateStreak. -/
def descRange (a b : Int) : List Int :=
  (ascRange b a).reverse

/-- The starting day of the backward walk of calculateStreak: yesterday when
today is scheduled but not completed (grace period), today otherwise. -/
def streakStart (completed : List Int) (habit : Habit) (today : Int) : Int :=
  if ¬ completed.contains today ∧ isDayScheduled today habit then today - 1 else today

/-- One iteration of the backward while-loop of calculateStreak.  The Bool
component is true while the loop has not hit its break statement (a scheduled
day that was not completed); once false the remaining days are ignored, which
models the break. -/
def streakStep (completed : List Int) (habit : Habit) (st : Bool × Nat) (d : Int) :
    Bool × Nat :=
  if st.1 then
    if isDayScheduled d habit then
      if completed.contains d then (true, st.2 + 1) else (false, st.2)
    else st
  else st

/-- calculateStreak(completedDates, habit) from the source.  The while-loop
examines the days streakStart, streakStart - 1, ... and stops after examining
today - 365 (the bound daysDiff > 365 is tested after moving one day back), so
its visit order is exactly descRange (streakStart ...) (today - 365) with the
break modelled by the Bool flag of streakStep. -/
def calculateStreak (completed : List Int) (habit : Habit) (today : Int) : Nat :=
  if completed.length = 0 then 0
  else
    ((descRange (streakStart completed habit today) (today - 365)).foldl
      (streakStep completed habit) (true, 0)).2

/-- A day examined by the backward walk of calculateStreak that does not hit
its break statement: either not scheduled, or scheduled and completed. -/
def goodDay (completed : List Int) (habit : Habit) (d : Int) : Bool :=
  !(isDayScheduled d habit) || completed.contains d

/-- One iteration of the forward while-loop of calculateBestStreak: the pair is
(bestStreak, currentStreak). -/
def bestStep (completed : List Int) (habit : Habit) (p : Nat × Nat) (d : Int) :
    Nat × Nat :=
  if isDayScheduled d habit then
    if completed.contains d then (max p.1 (p.2 + 1), p.2 + 1) else (p.1, 0)
  else p

/-- calculateBestStreak(completedDates, habit) from the source: walks forward
from the earliest completed date (head of the sorted list, i.e. the minimum) up
to and including today. -/
def calculateBestStreak (completed : List Int) (habit : Habit) (today : Int) : Nat :=
  match completed.min? with
  | none => 0
  | some earliest => ((ascRange earliest today).foldl (bestStep completed habit) (0, 0)).1

/-- calculateTotal(completedDates) from the source. -/
def calculateTotal (completed : List Int) : Nat :=
  completed.length

/-- One iteration of the counting loop of calculateCompletionRate: the pair is
(scheduledDays, completedDays); i is the loop index, the visited date is
today - i. -/
def rateStep (completed : List Int) (habit : Habit) (today : Int) (p : Nat × Nat)
    (i : Nat) : Nat × Nat :=
  if isDayScheduled (today - (i : Int)) habit then
    (p.1 + 1, if completed.contains (today - (i : Int)) then p.2 + 1 else p.2)
  else p

/-- calculateCompletionRate(completedDates, habit, days) from the source
(the default argument 30 is applied at the call site getHabitStats). -/
def calculateCompletionRate (completed : List Int) (habit : Habit) (today : Int)
    (days : Nat) : ℚ :=
  let counts := (List.range days).foldl (rateStep completed habit today) (0, 0)
  if 0 < counts.1 then (counts.2 : ℚ) / (counts.1 : ℚ) else 0

/-- Number of scheduled days in the trailing window of calculateCompletionRate. -/
def scheduledCount (habit : Habit) (today : Int) (days : Nat) : Nat :=
  (List.range days).countP (fun (i : Nat) => isDayScheduled (today - (i : Int)) habit)

/-- Number of scheduled-and-completed days in the trailing window of
calculateCompletionRate. -/
def completedScheduledCount (completed : List Int) (habit : Habit) (today : Int)
    (days : Nat) : Nat :=
  (List.range days).countP
    (fun (i : Nat) => isDayScheduled (today - (i : Int)) habit &&
      completed.contains (today - (i : Int)))

/-- The record returned by getHabitStats. -/
structure HabitStats where
  score : ℚ
  currentStreak : Nat
  bestStreak : Nat
  total : Nat
  completionRate : ℚ
  scoreHistory : List (Int × ℚ)

/-- getHabitStats(completedDates, habit) from the source: composes the six
statistics, letting every default window argument apply (60 for score, 30 for
completionRate and scoreHistory). -/
def getHabitStats (completed : List Int) (habit : Habit) (today : Int) : HabitStats :=
  ⟨calculateHabitScore completed habit today 60,
   calculateStreak completed habit today,
   calculateBestStreak completed habit today,
   calculateTotal completed,
   calculateCompletionRate completed habit today 30,
   calculateScoreHistory completed habit today 30⟩

/-- The completed-branch update of the scoring loop. -/
def completeStep (s : ℚ) : ℚ :=
  min MAX_SCORE (s + SCORE_INCREASE * (1 - s * 0.5))

/-- The running score after n consecutive scheduled-and-completed days starting
from 0. -/
def iterScore : Nat → ℚ
  | 0 => 0
  | n + 1 => completeStep (iterScore n)

/-- A daily habit used in concrete instances. -/
def hbDaily : Habit := ⟨Frequency.daily, 0, 0, none⟩

/-- The interval habit of the spec scenario: frequency interval, interval 2,
createdAt 2024-01-01 (epoch day 19723). -/
def hbInterval2 : Habit := ⟨Frequency.interval, 2, 19723, none⟩

/-- Completion set for the C3 counterexample: every day of the 28-day window
ending at day 27. -/
def allDays28 : List Int := (List.range 28).map (fun (i : Nat) => (i : Int))

/-- Completion set for the C9 mismatch: the 30 oldest days of the 60-day window
ending at day 59 (days 0..29), so the 30-day history window sees no completion. -/
def oldHalf60 : List Int := (List.range 30).map (fun (i : Nat) => (i : Int))

/-! ### Basic lemmas about the walked windows -/

lemma windowDates_succ (today : Int) (n : Nat) :
    windowDates today (n + 1) = (today - (n : Int)) :: windowDates today n := by
  simp [windowDates, List.range_succ]

lemma windowDates_length (today : Int) (days : Nat) :
    (windowDates today days).length = days := by
  unfold windowDates
  rw [List.length_map, List.length_reverse, List.length_range]

/-- scoreStep keeps the running score inside the unit interval. -/
lemma scoreStep_mem_unit (c : List Int) (h : Habit) (s : ℚ) (d : Int)
    (h0 : 0 ≤ s) (h1 : s ≤ 1) :
    0 ≤ scoreStep c h s d ∧ scoreStep c h s d ≤ 1 := by
  unfold scoreStep
  split
  · split
    · constructor
      · apply le_min
        · norm_num [MAX_SCORE]
        · unfold SCORE_INCREASE
          nlinarith
      · exact min_le_left _ _ |>.trans (by norm_num [MAX_SCORE])
    · constructor
      · exact le_max_left _ _ |>.trans_eq' (by norm_num [MIN_SCORE])
      · apply max_le
        · norm_num [MIN_SCORE]
        · unfold SCORE_DECREASE
          nlinarith
  · exact ⟨h0, h1⟩

lemma foldl_scoreStep_mem_unit (c : List Int) (h : Habit) :
    ∀ (dates : List Int) (s : ℚ), 0 ≤ s → s ≤ 1 →
      0 ≤ dates.foldl (scoreStep c h) s ∧ dates.foldl (scoreStep c h) s ≤ 1 := by
  intro dates
  induction dates with
  | nil => intro s h0 h1; exact ⟨h0, h1⟩
  | cons d rest ih =>
    intro s h0 h1
    have hs := scoreStep_mem_unit c h s d h0 h1
    simpa using ih (scoreStep c h s d) hs.1 hs.2

/-- C1: for every completion set, habit schedule, current day and non-negative
lookback window, calculateHabitScore stays in the closed interval [0, 1]. -/
theorem calculateHabitScore_mem_unit (c : List Int) (h : Habit) (today : Int)
    (days : Nat) :
    0 ≤ calculateHabitScore c h today days ∧ calculateHabitScore c h today days ≤ 1 :=
  foldl_scoreStep_mem_unit c h (windowDates today days) 0 le_rfl (by norm_num)

/-- C5: for an interval-frequency habit, isDayScheduled holds exactly on the
days on or after createdAt whose whole-day distance from createdAt is divisible
by the interval (a falsy interval field defaulting to 2); in the concrete
scenario interval 2, createdAt 2024-01-01 (epoch day 19723), it is true on
2024-01-01/03/05 and false on 2024-01-02/04. -/
theorem isDayScheduled_interval_spec :
    (∀ (h : Habit) (date : Int), h.frequency = Frequency.interval →
      (isDayScheduled date h = true ↔
        h.createdAt ≤ date ∧
          (date - h.createdAt) % (if h.interval = 0 then 2 else (h.interval : Int)) = 0)) ∧
    isDayScheduled 19723 hbInterval2 = true ∧
    isDayScheduled 19725 hbInterval2 = true ∧
    isDayScheduled 19727 hbInterval2 = true ∧
    isDayScheduled 19724 hbInterval2 = false ∧
    isDayScheduled 19726 hbInterval2 = false := by
  refine ⟨?_, by decide, by decide, by decide, by decide, by decide⟩
  intro h date hf
  simp only [isDayScheduled, hf, Bool.and_eq_true, decide_eq_true_eq]
  omega

/-- Witness for the hypotheses of isDayScheduled_interval_spec: the general
characterisation applied to the concrete interval habit at 2024-01-05. -/
theorem isDayScheduled_interval_spec_witness :
    hbInterval2.frequency = Frequency.interval ∧ isDayScheduled 19727 hbInterval2 = true :=
  ⟨rfl, (isDayScheduled_interval_spec.1 hbInterval2 19727 rfl).mpr (by decide)⟩

/-- C10: only a falsy interval field (modelled as 0) is replaced by the default
2; interval = 1 is used as-is, making every day on or after createdAt
scheduled. -/
theorem isDayScheduled_interval_one (h : Habit) (date : Int)
    (hf : h.frequency = Frequency.interval) (hi : h.interval = 1) :
    isDayScheduled date h = true ↔ h.createdAt ≤ date := by
  simp [isDayScheduled, hf, hi]

/-- Witness for isDayScheduled_interval_one at a concrete habit and date. -/
theorem isDayScheduled_interval_one_witness :
    (⟨Frequency.interval, 1, 5, none⟩ : Habit).frequency = Frequency.interval ∧
    (⟨Frequency.interval, 1, 5, none⟩ : Habit).interval = 1 ∧
    isDayScheduled 9 (⟨Frequency.interval, 1, 5, none⟩ : Habit) = true :=
  ⟨rfl, rfl,
    (isDayScheduled_interval_one (⟨Frequency.interval, 1, 5, none⟩ : Habit) 9 rfl rfl).mpr
      (by decide)⟩

/-- C6: with an empty completion set, calculateStreak, calculateBestStreak and
calculateTotal all return 0. -/
theorem empty_completions_give_zero (h : Habit) (today : Int) :
    calculateStreak [] h today = 0 ∧ calculateBestStreak [] h today = 0 ∧
    calculateTotal [] = 0 := by
  refine ⟨by simp [calculateStreak], ?_, rfl⟩
  simp [calculateBestStreak, List.min?]

/-! ### Score history: same walk as the score (C2) and window shape (C8) -/

lemma scoreHistoryAux_cons (c : List Int) (h : Habit) (s : ℚ) (d : Int) (rest : List Int) :
    scoreHistoryAux c h s (d :: rest) =
      (d, scoreStep c h s d) :: scoreHistoryAux c h (scoreStep c h s d) rest := rfl

lemma scoreHistoryAux_getLast? (c : List Int) (h : Habit) :
    ∀ (dates : List Int) (s : ℚ), dates ≠ [] →
      (scoreHistoryAux c h s dates).getLast?.map Prod.snd =
        some (dates.foldl (scoreStep c h) s) := by
  intro dates
  induction dates with
  | nil => intro s hne; exact absurd rfl hne
  | cons d rest ih =>
    intro s hne
    cases rest with
    | nil => simp [scoreHistoryAux]
    | cons r rs =>
      rw [scoreHistoryAux_cons, scoreHistoryAux_cons, List.getLast?_cons_cons,
        ← scoreHistoryAux_cons, ih (scoreStep c h s d) (by simp)]
      rfl

/-- C2: the last entry of calculateScoreHistory over an N-day window carries
exactly the value of calculateHabitScore over the same N-day window: the two
functions perform the same walk. -/
theorem scoreHistory_getLast_eq_calculateHabitScore (c : List Int) (h : Habit)
    (today : Int) (N : Nat) (hN : 1 ≤ N) :
    (calculateScoreHistory c h today N).getLast?.map Prod.snd =
      some (calculateHabitScore c h today N) := by
  unfold calculateScoreHistory calculateHabitScore
  apply scoreHistoryAux_getLast?
  have hl := windowDates_length today N
  intro hemp
  rw [hemp] at hl
  simp at hl
  omega

/-- Witness for scoreHistory_getLast_eq_calculateHabitScore at a concrete
3-day window. -/
theorem scoreHistory_getLast_eq_calculateHabitScore_witness :
    1 ≤ 3 ∧ (calculateScoreHistory [0, 1, 2] hbDaily 2 3).getLast?.map Prod.snd =
      some (calculateHabitScore [0, 1, 2] hbDaily 2 3) :=
  ⟨by decide, scoreHistory_getLast_eq_calculateHabitScore [0, 1, 2] hbDaily 2 3 (by decide)⟩

lemma scoreHistoryAux_length (c : List Int) (h : Habit) :
    ∀ (dates : List Int) (s : ℚ), (scoreHistoryAux c h s dates).length = dates.length := by
  intro dates
  induction dates with
  | nil => intro s; rfl
  | cons d rest ih => intro s; simp [scoreHistoryAux_cons, ih]

lemma scoreHistoryAux_map_fst (c : List Int) (h : Habit) :
    ∀ (dates : List Int) (s : ℚ), (scoreHistoryAux c h s dates).map Prod.fst = dates := by
  intro dates
  induction dates with
  | nil => intro s; rfl
  | cons d rest ih => intro s; simp [scoreHistoryAux_cons, ih]

lemma scoreHistoryAux_carry (c : List Int) (h : Habit) :
    ∀ (dates : List Int) (s : ℚ),
      List.Chain' (fun p q : Int × ℚ => isDayScheduled q.1 h = false → q.2 = p.2)
        (scoreHistoryAux c h s dates) := by
  intro dates
  induction dates with
  | nil => intro s; simp [scoreHistoryAux]
  | cons d rest ih =>
    intro s
    rw [scoreHistoryAux_cons, List.chain'_cons']
    refine ⟨?_, ih _⟩
    intro q hq hsched
    cases rest with
    | nil => simp [scoreHistoryAux] at hq
    | cons r rs =>
      rw [scoreHistoryAux_cons] at hq
      simp at hq
      subst hq
      simp at hsched ⊢
      simp [scoreStep, hsched]

lemma windowDates_head? (today : Int) (n : Nat) :
    (windowDates today (n + 1)).head? = some (today - (n : Int)) := by
  rw [windowDates_succ]; rfl

lemma windowDates_chain' (today : Int) (days : Nat) :
    List.Chain' (fun a b : Int => b = a + 1) (windowDates today days) := by
  induction days with
  | zero => simp [windowDates]
  | succ n ih =>
    rw [windowDates_succ, List.chain'_cons']
    refine ⟨?_, ih⟩
    intro y hy
    cases n with
    | zero => simp [windowDates] at hy
    | succ m =>
      rw [windowDates_head?] at hy
      simp at hy
      rw [← hy]
      push_cast
      ring

lemma windowDates_getLast? (today : Int) (n : Nat) :
    (windowDates today (n + 1)).getLast? = some today := by
  induction n with
  | zero =>
    simp [windowDates]
    rfl
  | succ m ih =>
    rw [windowDates_succ, windowDates_succ, List.getLast?_cons_cons,
      ← windowDates_succ, ih]

/-- C8: calculateScoreHistory returns exactly days entries; their dates are
consecutive calendar days in ascending (oldest to newest) order ending today;
and every entry whose day is not scheduled carries the same score as the entry
before it. -/
theorem scoreHistory_window_shape (c : List Int) (h : Habit) (today : Int) (days : Nat) :
    (calculateScoreHistory c h today days).length = days ∧
    List.Chain' (fun p q : Int × ℚ => q.1 = p.1 + 1) (calculateScoreHistory c h today days) ∧
    (1 ≤ days → (calculateScoreHistory c h today days).getLast?.map Prod.fst = some today) ∧
    List.Chain' (fun p q : Int × ℚ => isDayScheduled q.1 h = false → q.2 = p.2)
      (calculateScoreHistory c h today days) := by
  refine ⟨?_, ?_, ?_, ?_⟩
  · rw [calculateScoreHistory, scoreHistoryAux_length, windowDates_length]
  · have hmap := scoreHistoryAux_map_fst c h (windowDates today days) 0
    have hiff := List.chain'_map (Prod.fst : Int × ℚ → Int)
      (l := calculateScoreHistory c h today days) (R := fun a b : Int => b = a + 1)
    rw [calculateScoreHistory] at *
    rw [hmap] at hiff
    exact hiff.mp (windowDates_chain' today days)
  · intro hdays
    obtain ⟨n, rfl⟩ : ∃ n, days = n + 1 := ⟨days - 1, by omega⟩
    rw [calculateScoreHistory, ← List.getLast?_map, scoreHistoryAux_map_fst,
      windowDates_getLast?]
  · exact scoreHistoryAux_carry c h (windowDates today days) 0

/-- Witness for the conditional conjunct of scoreHistory_window_shape at a
concrete input. -/
theorem scoreHistory_window_shape_witness :
    1 ≤ 3 ∧ (calculateScoreHistory [] hbDaily 7 3).getLast?.map Prod.fst = some 7 :=
  ⟨by decide, (scoreHistory_window_shape [] hbDaily 7 3).2.2.1 (by decide)⟩

/-! ### C3: the all-completed daily walk -/

lemma completeStep_mem_unit (s : ℚ) (h0 : 0 ≤ s) (h1 : s ≤ 1) :
    0 ≤ completeStep s ∧ completeStep s ≤ 1 := by
  unfold completeStep SCORE_INCREASE MAX_SCORE
  constructor
  · apply le_min
    · norm_num
    · nlinarith
  · exact min_le_left _ _

lemma iterScore_mem_unit : ∀ n, 0 ≤ iterScore n ∧ iterScore n ≤ 1 := by
  intro n
  induction n with
  | zero => simp [iterScore]
  | succ m ih => exact completeStep_mem_unit _ ih.1 ih.2

lemma completeStep_pos (s : ℚ) (h0 : 0 ≤ s) (h1 : s ≤ 1) : 0 < completeStep s := by
  unfold completeStep SCORE_INCREASE MAX_SCORE
  apply lt_min
  · norm_num
  · nlinarith

lemma completeStep_gt (s : ℚ) (h0 : 0 ≤ s) (h1 : s < 1) : s < completeStep s := by
  unfold completeStep SCORE_INCREASE MAX_SCORE
  apply lt_min h1
  nlinarith

/-- With the constants of the source the running score of an unbroken daily
completion run stays strictly below 1 for the first 26 updates (checked by
exact rational evaluation). -/
lemma iterScore_lt_one_of_lt27 : ∀ n, n < 27 → iterScore n < 1 :=
  of_decide_eq_true (by with_unfolding_all rfl)

lemma scoreHistoryAux_map_snd_all_completed (c : List Int) (h : Habit)
    (hs : ∀ d : Int, isDayScheduled d h = true) :
    ∀ (dates : List Int) (k : Nat), (∀ d ∈ dates, c.contains d = true) →
      (scoreHistoryAux c h (iterScore k) dates).map Prod.snd =
        (List.range dates.length).map (fun i => iterScore (k + i + 1)) := by
  intro dates
  induction dates with
  | nil => intro k _; rfl
  | cons d rest ih =>
    intro k hc
    have hstep : scoreStep c h (iterScore k) d = iterScore (k + 1) := by
      show scoreStep c h (iterScore k) d = completeStep (iterScore k)
      unfold scoreStep completeStep
      rw [hs d, hc d (List.mem_cons_self d rest)]
      simp
    rw [scoreHistoryAux_cons, hstep]
    simp only [List.map_cons, List.length_cons]
    rw [ih (k + 1) (fun x hx => hc x (List.mem_cons_of_mem _ hx)),
      List.range_succ_eq_map]
    simp only [List.map_cons, List.map_map, Function.comp_def]
    refine congrArg₂ List.cons (by norm_num) (List.map_congr_left ?_)
    intro i _
    exact congrArg iterScore (by omega)

/-- C3 (amended): for a daily habit whose completion set covers the whole
window, the running score recorded by the walk strictly increases on every day
and stays strictly inside (0, 1) for every window length between 1 and 26
days; for 27 or more days the clamp makes the score exactly 1.0 (see the
counterexample). -/
theorem scoreHistory_strictMono_below_one (c : List Int) (h : Habit) (today : Int)
    (N : Nat) (h1 : 1 ≤ N) (h2 : N ≤ 26) (hf : h.frequency = Frequency.daily)
    (hc : ∀ d ∈ windowDates today N, c.contains d = true) :
    List.Chain' (fun p q : Int × ℚ => p.2 < q.2) (calculateScoreHistory c h today N) ∧
    ∀ p ∈ calculateScoreHistory c h today N, 0 < p.2 ∧ p.2 < 1 := by
  have hs : ∀ d : Int, isDayScheduled d h = true := by
    intro d
    simp [isDayScheduled, hf]
  have he : calculateScoreHistory c h today N =
      scoreHistoryAux c h (iterScore 0) (windowDates today N) := rfl
  have hmap := scoreHistoryAux_map_snd_all_completed c h hs (windowDates today N) 0 hc
  rw [windowDates_length] at hmap
  constructor
  · have hiff := List.chain'_map (Prod.snd : Int × ℚ → ℚ)
      (l := calculateScoreHistory c h today N) (R := fun a b : ℚ => a < b)
    rw [he, hmap] at hiff
    rw [he]
    apply hiff.mp
    obtain ⟨n, rfl⟩ : ∃ n, N = n + 1 := ⟨N - 1, by omega⟩
    rw [List.chain'_map, List.chain'_range_succ]
    intro m hm
    have hb := iterScore_mem_unit (0 + m + 1)
    have hlt : iterScore (0 + m + 1) < 1 :=
      iterScore_lt_one_of_lt27 (0 + m + 1) (by omega)
    have := completeStep_gt (iterScore (0 + m + 1)) hb.1 hlt
    have harg : 0 + (m + 1) + 1 = (0 + m + 1) + 1 := by omega
    rw [harg]
    exact this
  · intro p hp
    have hmem : p.2 ∈ (calculateScoreHistory c h today N).map Prod.snd :=
      List.mem_map_of_mem Prod.snd hp
    rw [he, hmap] at hmem
    simp only [List.mem_map, List.mem_range] at hmem
    obtain ⟨i, hi, hip⟩ := hmem
    have hb := iterScore_mem_unit (0 + i)
    constructor
    · rw [← hip]
      exact completeStep_pos (iterScore (0 + i)) hb.1 hb.2
    · rw [← hip]
      exact iterScore_lt_one_of_lt27 (0 + i + 1) (by omega)

/-- Witness for scoreHistory_strictMono_below_one at a concrete 3-day window. -/
theorem scoreHistory_strictMono_below_one_witness :
    (1 ≤ 3 ∧ 3 ≤ 26 ∧ hbDaily.frequency = Frequency.daily ∧
      ∀ d ∈ windowDates 2 3, List.contains [0, 1, 2] d = true) ∧
    List.Chain' (fun p q : Int × ℚ => p.2 < q.2)
      (calculateScoreHistory [0, 1, 2] hbDaily 2 3) :=
  ⟨⟨by decide, by decide, rfl, by decide⟩,
   (scoreHistory_strictMono_below_one [0, 1, 2] hbDaily 2 3 (by decide) (by decide) rfl
     (by decide)).1⟩

/-- C3 counterexample: for the daily habit with every day of the 28-day window
completed, the walk's running score reaches exactly 1.0 (the clamp binds at the
27th update) and then stops strictly increasing, so the claimed property fails
for lookbackDays = 28. -/
theorem scoreHistory_reaches_one_counterexample :
    (calculateScoreHistory allDays28 hbDaily 27 28).getLast?.map Prod.snd = some 1 ∧
    ¬ (List.Chain' (fun p q : Int × ℚ => p.2 < q.2)
        (calculateScoreHistory allDays28 hbDaily 27 28) ∧
       ∀ p ∈ calculateScoreHistory allDays28 hbDaily 27 28, p.2 < 1) :=
  ⟨of_decide_eq_true (by with_unfolding_all rfl),
   fun hcl => absurd hcl.2 (of_decide_eq_true (by with_unfolding_all rfl))⟩

/-! ### C9: getHabitStats mixes a 60-day score window with a 30-day history -/

/-- C9: getHabitStats computes its score field over the default 60-day window
and its scoreHistory field over the default 30-day window; on the concrete
input oldHalf60 (completions on the 30 oldest days of the 60-day window,
today = 59) the score field differs from the last scoreHistory entry's score. -/
theorem getHabitStats_window_mismatch :
    (getHabitStats oldHalf60 hbDaily 59).score =
      calculateHabitScore oldHalf60 hbDaily 59 60 ∧
    (getHabitStats oldHalf60 hbDaily 59).scoreHistory =
      calculateScoreHistory oldHalf60 hbDaily 59 30 ∧
    (getHabitStats oldHalf60 hbDaily 59).scoreHistory.getLast?.map Prod.snd ≠
      some (getHabitStats oldHalf60 hbDaily 59).score :=
  ⟨rfl, rfl, of_decide_eq_true (by with_unfolding_all rfl)⟩

/-! ### C7: completion rate -/

lemma foldl_rateStep (c : List Int) (h : Habit) (today : Int) :
    ∀ (L : List Nat) (p : Nat × Nat),
      L.foldl (rateStep c h today) p =
        (p.1 + L.countP (fun (i : Nat) => isDayScheduled (today - (i : Int)) h),
         p.2 + L.countP (fun (i : Nat) => isDayScheduled (today - (i : Int)) h &&
            c.contains (today - (i : Int)))) := by
  intro L
  induction L with
  | nil => intro p; simp
  | cons i rest ih =>
    intro p
    rw [List.foldl_cons, ih]
    cases hs : isDayScheduled (today - (i : Int)) h with
    | false =>
      simp [rateStep, hs, List.countP_cons]
    | true =>
      cases hm : c.contains (today - (i : Int)) with
      | false =>
        simp at hm
        simp [rateStep, hs, hm, List.countP_cons]
        omega
      | true =>
        simp at hm
        simp [rateStep, hs, hm, List.countP_cons]
        omega

/-- C7: calculateCompletionRate counts the scheduled and the
scheduled-and-completed days over the trailing window and returns their ratio,
guarded to 0 when no day is scheduled, so the result always lies in [0, 1]. -/
theorem calculateCompletionRate_spec (c : List Int) (h : Habit) (today : Int)
    (days : Nat) :
    calculateCompletionRate c h today days =
      (if scheduledCount h today days = 0 then 0
       else (completedScheduledCount c h today days : ℚ) /
         (scheduledCount h today days : ℚ)) ∧
    0 ≤ calculateCompletionRate c h today days ∧
    calculateCompletionRate c h today days ≤ 1 := by
  have hle : completedScheduledCount c h today days ≤ scheduledCount h today days := by
    unfold completedScheduledCount scheduledCount
    apply List.countP_mono_left
    intro x _ hp
    exact (Bool.and_eq_true _ _ |>.mp hp).1
  have heq : calculateCompletionRate c h today days =
      if scheduledCount h today days = 0 then 0
      else (completedScheduledCount c h today days : ℚ) /
        (scheduledCount h today days : ℚ) := by
    unfold calculateCompletionRate scheduledCount completedScheduledCount
    rw [foldl_rateStep]
    rcases Nat.eq_zero_or_pos
        ((List.range days).countP (fun (i : Nat) => isDayScheduled (today - (i : Int)) h))
      with hz | hpos
    · simp [hz]
    · simp only [Nat.zero_add]
      rw [if_pos hpos, if_neg (by omega)]
  refine ⟨heq, ?_, ?_⟩
  · rw [heq]
    split
    · exact le_refl 0
    · positivity
  · rw [heq]
    split
    · norm_num
    · rename_i hnz
      rw [div_le_one (by positivity)]
      exact_mod_cast hle

/-! ### C4: range lemmas for the streak walks -/

lemma ascRange_nil (a b : Int) (hba : b < a) : ascRange a b = [] := by
  unfold ascRange
  rw [show (b + 1 - a).toNat = 0 by omega]
  rfl

lemma mem_ascRange {a b x : Int} : x ∈ ascRange a b ↔ a ≤ x ∧ x ≤ b := by
  unfold ascRange
  simp only [List.mem_map, List.mem_range]
  constructor
  · rintro ⟨j, hj, rfl⟩
    omega
  · intro hx
    exact ⟨(x - a).toNat, by omega, by omega⟩

lemma ascRange_cons (a b : Int) (hab : a ≤ b) : ascRange a b = a :: ascRange (a + 1) b := by
  unfold ascRange
  rw [show (b + 1 - a).toNat = (b + 1 - (a + 1)).toNat + 1 by omega, List.range_succ_eq_map,
    List.map_cons, List.map_map]
  refine congrArg₂ List.cons (by simp) (List.map_congr_left ?_)
  intro j _
  simp only [Function.comp_apply]
  push_cast
  ring

lemma ascRange_singleton (a : Int) : ascRange a a = [a] := by
  unfold ascRange
  rw [show (a + 1 - a).toNat = 1 by omega, List.range_succ]
  simp

lemma ascRange_split : ∀ (n : Nat) (a mm b : Int), (mm - a).toNat = n → a ≤ mm →
    mm ≤ b + 1 → ascRange a b = ascRange a (mm - 1) ++ ascRange mm b := by
  intro n
  induction n with
  | zero =>
    intro a mm b hn ham hmb
    obtain rfl : a = mm := by omega
    rw [ascRange_nil a (a - 1) (by omega)]
    rfl
  | succ k ih =>
    intro a mm b hn ham hmb
    rw [ascRange_cons a b (by omega), ascRange_cons a (mm - 1) (by omega),
      List.cons_append, ih (a + 1) mm b (by omega) (by omega) hmb]

lemma ascRange_split' (a mm b : Int) (h1 : a ≤ mm) (h2 : mm ≤ b + 1) :
    ascRange a b = ascRange a (mm - 1) ++ ascRange mm b :=
  ascRange_split (mm - a).toNat a mm b rfl h1 h2

lemma descRange_nil (a b : Int) (hab : a < b) : descRange a b = [] := by
  unfold descRange
  rw [ascRange_nil b a hab]
  rfl

lemma descRange_cons (a b : Int) (hba : b ≤ a) : descRange a b = a :: descRange (a - 1) b := by
  unfold descRange
  rw [ascRange_split' b a a hba (by omega), ascRange_singleton]
  simp

lemma mem_descRange {a b x : Int} : x ∈ descRange a b ↔ b ≤ x ∧ x ≤ a := by
  unfold descRange
  rw [List.mem_reverse, mem_ascRange]

lemma descRange_length (a b : Int) : (descRange a b).length = (a + 1 - b).toNat := by
  unfold descRange ascRange
  simp

lemma ascRange_nodup (a b : Int) : (ascRange a b).Nodup := by
  unfold ascRange
  refine List.Nodup.map ?_ (List.nodup_range _)
  intro x y hxy
  simp only at hxy
  omega

lemma descRange_nodup (a b : Int) : (descRange a b).Nodup := by
  unfold descRange
  rw [List.nodup_reverse]
  exact ascRange_nodup b a

lemma takeWhile_eq_take_length {α : Type} (p : α → Bool) :
    ∀ l : List α, l.takeWhile p = l.take (l.takeWhile p).length := by
  intro l
  induction l with
  | nil => rfl
  | cons a l ih =>
    cases hp : p a with
    | false => simp [List.takeWhile_cons, hp]
    | true =>
      simp only [List.takeWhile_cons, hp, if_true, List.length_cons, List.take_succ_cons]
      exact congrArg (List.cons a) ih

lemma mem_take_descRange : ∀ (k : Nat) (a b x : Int), x ∈ (descRange a b).take k →
    a - k < x ∧ x ≤ a := by
  intro k
  induction k with
  | zero =>
    intro a b x hx
    simp at hx
  | succ n ih =>
    intro a b x hx
    by_cases hba : b ≤ a
    · rw [descRange_cons a b hba, List.take_succ_cons] at hx
      rcases List.mem_cons.mp hx with hxa | hxt
      · subst hxa
        omega
      · have := ih (a - 1) b x hxt
        omega
    · rw [descRange_nil a b (by omega)] at hx
      simp at hx

lemma take_descRange_mem : ∀ (k : Nat) (a b x : Int), x ∈ descRange a b →
    a - k < x → x ∈ (descRange a b).take k := by
  intro k
  induction k with
  | zero =>
    intro a b x hx hlt
    have hb := mem_descRange.mp hx
    exact absurd hlt (by omega)
  | succ n ih =>
    intro a b x hx hlt
    have hb := mem_descRange.mp hx
    have hba : b ≤ a := by omega
    rw [descRange_cons a b hba] at hx ⊢
    rw [List.take_succ_cons]
    rcases List.mem_cons.mp hx with hxa | hxt
    · subst hxa
      exact List.mem_cons_self _ _
    · exact List.mem_cons_of_mem _ (ih (a - 1) b x hxt (by omega))

/-! ### C4: characterisations of the two streak folds -/

lemma foldl_streakStep_false (c : List Int) (h : Habit) :
    ∀ (L : List Int) (s : Nat), L.foldl (streakStep c h) (false, s) = (false, s) := by
  intro L
  induction L with
  | nil => intro s; rfl
  | cons d rest ih =>
    intro s
    rw [List.foldl_cons, show streakStep c h (false, s) d = (false, s) from rfl, ih]

lemma foldl_streakStep_true (c : List Int) (h : Habit) :
    ∀ (L : List Int) (s : Nat),
      (L.foldl (streakStep c h) (true, s)).2 =
        s + (L.takeWhile (goodDay c h)).countP (fun d => isDayScheduled d h) := by
  intro L
  induction L with
  | nil => intro s; simp
  | cons d rest ih =>
    intro s
    rw [List.foldl_cons, List.takeWhile_cons]
    by_cases hsch : isDayScheduled d h = true
    · by_cases hcon : d ∈ c
      · have hst : streakStep c h (true, s) d = (true, s + 1) := by
          simp [streakStep, hsch, hcon]
        have hg : goodDay c h d = true := by simp [goodDay, hcon]
        rw [hst, ih (s + 1), hg]
        simp only [if_true, List.countP_cons, hsch]
        omega
      · have hst : streakStep c h (true, s) d = (false, s) := by
          simp [streakStep, hsch, hcon]
        have hg : goodDay c h d = false := by
          simp [goodDay, hsch, hcon]
        rw [hst, foldl_streakStep_false, hg]
        simp
    · have hst : streakStep c h (true, s) d = (true, s) := by
        simp [streakStep, hsch]
      have hg : goodDay c h d = true := by simp [goodDay, hsch]
      rw [hst, ih s, hg]
      simp only [if_true, List.countP_cons, hsch]
      simp

lemma foldl_bestStep_fst_le (c : List Int) (h : Habit) :
    ∀ (L : List Int) (p : Nat × Nat), p.1 ≤ (L.foldl (bestStep c h) p).1 := by
  intro L
  induction L with
  | nil => intro p; exact le_refl _
  | cons d rest ih =>
    intro p
    rw [List.foldl_cons]
    refine le_trans ?_ (ih (bestStep c h p d))
    unfold bestStep
    split
    · split
      · exact le_max_left _ _
      · exact le_refl _
    · exact le_refl _

lemma foldl_bestStep_inv (c : List Int) (h : Habit) :
    ∀ (L : List Int) (p : Nat × Nat), p.2 ≤ p.1 →
      (L.foldl (bestStep c h) p).2 ≤ (L.foldl (bestStep c h) p).1 := by
  intro L
  induction L with
  | nil => intro p hp; exact hp
  | cons d rest ih =>
    intro p hp
    rw [List.foldl_cons]
    refine ih (bestStep c h p d) ?_
    unfold bestStep
    split
    · split
      · exact le_max_right _ _
      · exact Nat.zero_le _
    · exact hp

lemma foldl_bestStep_all_completed (c : List Int) (h : Habit) :
    ∀ (L : List Int) (p : Nat × Nat),
      (∀ d ∈ L, isDayScheduled d h = true → c.contains d = true) →
      (L.foldl (bestStep c h) p).2 = p.2 + L.countP (fun d => isDayScheduled d h) := by
  intro L
  induction L with
  | nil => intro p _; simp
  | cons d rest ih =>
    intro p hall
    rw [List.foldl_cons, List.countP_cons]
    by_cases hsch : isDayScheduled d h = true
    · have hcon : d ∈ c := by simpa using hall d (List.mem_cons_self d rest) hsch
      have hst : bestStep c h p d = (max p.1 (p.2 + 1), p.2 + 1) := by
        simp [bestStep, hsch, hcon]
      rw [hst, ih _ (fun x hx => hall x (List.mem_cons_of_mem _ hx))]
      simp only [hsch, if_true]
      omega
    · have hst : bestStep c h p d = p := by simp [bestStep, hsch]
      rw [hst, ih _ (fun x hx => hall x (List.mem_cons_of_mem _ hx))]
      simp only [hsch]
      simp

lemma min?_le_of_mem {l : List Int} {a x : Int} (hmin : l.min? = some a) (hx : x ∈ l) :
    a ≤ x := by
  have h2 : a ≤ a ↔ ∀ b, b ∈ l → a ≤ b :=
    List.le_min?_iff (fun p q r => le_min_iff) hmin
  exact (h2.mp (le_refl a)) x hx

lemma length_le_of_nodup_subset {l₁ l₂ : List Int} (h1 : l₁.Nodup) (hsub : l₁ ⊆ l₂) :
    l₁.length ≤ l₂.length :=
  (h1.subperm hsub).length_le

/-- C4: for every completion set, habit schedule and current day,
calculateBestStreak is at least calculateStreak.  The days counted by the
backward walk of calculateStreak form a run of consecutive days whose
scheduled members are all completed; the forward walk of calculateBestStreak
passes over that run (it lies between the earliest completion and today) and
its running maximum therefore reaches at least that count. -/
theorem calculateStreak_le_calculateBestStreak (c : List Int) (h : Habit) (today : Int) :
    calculateStreak c h today ≤ calculateBestStreak c h today := by
  by_cases hc : c.length = 0
  · simp [calculateStreak, hc]
  obtain ⟨e, he⟩ : ∃ e, c.min? = some e := by
    cases hm : c.min? with
    | none =>
      rw [List.min?_eq_none_iff] at hm
      rw [hm] at hc
      simp at hc
    | some e => exact ⟨e, rfl⟩
  have hbest : calculateBestStreak c h today =
      ((ascRange e today).foldl (bestStep c h) (0, 0)).1 := by
    unfold calculateBestStreak
    rw [he]
  have hstreak : calculateStreak c h today =
      ((descRange (streakStart c h today) (today - 365)).foldl
        (streakStep c h) (true, 0)).2 := by
    unfold calculateStreak
    rw [if_neg hc]
  set start := streakStart c h today with hstart
  set D := descRange start (today - 365) with hD
  set P := D.takeWhile (goodDay c h) with hP
  set k := P.length with hk
  have hs2 : calculateStreak c h today = P.countP (fun d => isDayScheduled d h) := by
    rw [hstreak, foldl_streakStep_true]
    simp
  by_cases hz : P.countP (fun d => isDayScheduled d h) = 0
  · rw [hs2, hz]
    exact Nat.zero_le _
  obtain ⟨x0, hx0P, hx0s⟩ : ∃ x ∈ P, isDayScheduled x h = true :=
    List.countP_pos_iff.mp (Nat.pos_of_ne_zero hz)
  have hx0good : goodDay c h x0 = true :=
    List.mem_takeWhile_imp (by rw [hP] at hx0P; exact hx0P)
  have hx0mem : x0 ∈ c := by simpa [goodDay, hx0s] using hx0good
  have hex0 : e ≤ x0 := min?_le_of_mem he hx0mem
  have hx0D : x0 ∈ D := (List.takeWhile_sublist _).subset (by rw [hP] at hx0P; exact hx0P)
  have hx0b : today - 365 ≤ x0 ∧ x0 ≤ start := by
    rw [hD, mem_descRange] at hx0D
    exact hx0D
  have hstart_le : start ≤ today := by
    rw [hstart]
    unfold streakStart
    split
    · omega
    · omega
  have hkD : k ≤ D.length := by
    rw [hk, hP]
    exact (List.takeWhile_sublist _).length_le
  have hDlen : D.length = (start + 1 - (today - 365)).toNat := by
    rw [hD, descRange_length]
  have hPtake : P = D.take k := by
    rw [hk, hP]
    exact takeWhile_eq_take_length _ D
  set t := max (start - (k : Int) + 1) e with ht
  have ht1 : start - (k : Int) + 1 ≤ t := le_max_left _ _
  have ht2 : e ≤ t := le_max_right _ _
  have htle : t ≤ start + 1 := by
    apply max_le
    · omega
    · omega
  set M := ascRange t start with hM
  have hMgood : ∀ d ∈ M, isDayScheduled d h = true → c.contains d = true := by
    intro d hdM hds
    rw [hM, mem_ascRange] at hdM
    have hdD : d ∈ descRange start (today - 365) := by
      rw [mem_descRange]
      exact ⟨by omega, hdM.2⟩
    have hdP : d ∈ P := by
      rw [hPtake, hD]
      exact take_descRange_mem k start (today - 365) d hdD (by omega)
    have hdg : goodDay c h d = true :=
      List.mem_takeWhile_imp (by rw [hP] at hdP; exact hdP)
    have hdmem : d ∈ c := by simpa [goodDay, hds] using hdg
    simpa using hdmem
  have hsplit1 : ascRange e today = ascRange e start ++ ascRange (start + 1) today := by
    have hs := ascRange_split' e (start + 1) today (by omega) (by omega)
    simpa using hs
  have hsplit2 : ascRange e start = ascRange e (t - 1) ++ M := by
    rw [hM]
    exact ascRange_split' e t start ht2 htle
  have hcount : P.countP (fun d => isDayScheduled d h) ≤
      M.countP (fun d => isDayScheduled d h) := by
    rw [List.countP_eq_length_filter, List.countP_eq_length_filter]
    apply length_le_of_nodup_subset
    · apply List.Nodup.filter
      rw [hPtake, hD]
      exact (List.take_sublist _ _).nodup (descRange_nodup _ _)
    · intro x hxF
      have hxP : x ∈ P := List.mem_of_mem_filter hxF
      have hxs : isDayScheduled x h = true := by
        have hxf := List.of_mem_filter hxF
        simpa using hxf
      have hxPb : start - (k : Int) < x ∧ x ≤ start := by
        apply mem_take_descRange k start (today - 365) x
        rw [hPtake, hD] at hxP
        exact hxP
      have hxgood : goodDay c h x = true :=
        List.mem_takeWhile_imp (by rw [hP] at hxP; exact hxP)
      have hxmem : x ∈ c := by simpa [goodDay, hxs] using hxgood
      have hex : e ≤ x := min?_le_of_mem he hxmem
      apply List.mem_filter.mpr
      refine ⟨?_, by simpa using hxs⟩
      rw [hM, mem_ascRange]
      refine ⟨?_, hxPb.2⟩
      apply max_le
      · omega
      · exact hex
  rw [hbest, hsplit1, hsplit2, List.foldl_append, List.foldl_append]
  set p1 := (ascRange e (t - 1)).foldl (bestStep c h) (0, 0) with hp1
  set p2 := M.foldl (bestStep c h) p1 with hp2
  have h1 : p2.1 ≤ ((ascRange (start + 1) today).foldl (bestStep c h) p2).1 :=
    foldl_bestStep_fst_le c h _ p2
  have hinv1 : p1.2 ≤ p1.1 := by
    rw [hp1]
    exact foldl_bestStep_inv c h _ (0, 0) (le_refl 0)
  have h2 : p2.2 ≤ p2.1 := by
    rw [hp2]
    exact foldl_bestStep_inv c h M p1 hinv1
  have h3 : p2.2 = p1.2 + M.countP (fun d => isDayScheduled d h) := by
    rw [hp2]
    exact foldl_bestStep_all_completed c h M p1 hMgood
  rw [hs2]
  omega

end HabitScore
